import Mathlib

/-!
# Verification of the hall-ticket record system (src/alsu.py)

Shallow embedding of the CSV-backed record store, the QR code
encoder/decoder, the QR rasterizer fallback, and the subject
normalization / truncation logic of the credential renderer.

File I/O and the pandas DataFrame are modelled explicitly: a DataFrame
is a column list plus a list of rows, the backing CSV file is a
`DbFile` (present / absent / unreadable), and the pool of rendered PDF
artifacts is a list of filenames.  Exceptions never escape the modelled
functions: each returns its fallback value, as the Python code catches
every exception at the function boundary.
-/

/-- One subject entry as it appears in a record's `subjects` field:
either a dict `{code, name, date}` built by the form, or a bare string
(from a hand-edited store).  Mirrors the two `isinstance` branches at
src/alsu.py lines 255 and 272. -/
inductive Subject where
  | entry (code name date : String)
  | bare (s : String)
deriving DecidableEq, Repr

/-- The dynamic type of the `subjects` cell: a literal Python list, or a
string (as it comes back from the CSV).  Mirrors the
`isinstance(subjects, str)` test at src/alsu.py line 228. -/
inductive SubjectsField where
  | lit (xs : List Subject)
  | str (s : String)
deriving DecidableEq, Repr

/-- One row of the student database (src/alsu.py lines 33-36 fix the
column set). -/
structure StudentRecord where
  id : String
  name : String
  roll_number : String
  program : String
  semester : String
  exam_date : String
  seat_number : String
  hall_ticket_id : String
  subjects : SubjectsField
deriving DecidableEq, Repr

/-- A pandas DataFrame, reduced to what the program observes: its
column labels and its rows. -/
structure DF where
  columns : List String
  rows : List StudentRecord
deriving DecidableEq, Repr

/-- State of the backing CSV file `assets/student_database.csv`:
present with some content, absent, or present but unreadable (any
exception raised by `pd.read_csv`). -/
inductive DbFile where
  | present (d : DF)
  | absent
  | unreadable
deriving DecidableEq, Repr

/-- The fixed column set of src/alsu.py lines 33-36 and 42-45. -/
def requiredColumns : List String :=
  ["id", "name", "roll_number", "program", "semester",
   "exam_date", "seat_number", "hall_ticket_id", "subjects"]

/-- The empty DataFrame created by `load_database` when the file is
absent or unreadable. -/
def emptyDF : DF := { columns := requiredColumns, rows := [] }

/-- `load_database` (src/alsu.py lines 26-45).  Returns the loaded
DataFrame, the file state afterwards, and whether `st.error` was shown.
If the file exists it is read; if absent, an empty DataFrame with the
fixed columns is written and returned; if reading raises, the error is
reported and the same empty DataFrame is returned without writing. -/
def load_database : DbFile → DF × DbFile × Bool
  | .present d => (d, .present d, false)
  | .absent => (emptyDF, .present emptyDF, false)
  | .unreadable => (emptyDF, .unreadable, true)

/-- The row transformation inside `save_to_database` (src/alsu.py lines
53-58): if a row with the same roll number exists, drop all such rows;
then append the new record at the end (`pd.concat`). -/
def upsertRows (rows : List StudentRecord) (rec : StudentRecord) :
    List StudentRecord :=
  (if rows.any (fun r => r.roll_number == rec.roll_number) then
    rows.filter (fun r => r.roll_number != rec.roll_number)
  else rows) ++ [rec]

/-- `save_to_database` (src/alsu.py lines 48-63): reload the database,
apply the upsert row transformation, write the file back.  Returns the
new file state and the success flag. -/
def save_to_database (file : DbFile) (rec : StudentRecord) :
    DbFile × Bool :=
  let d := (load_database file).1
  (.present { columns := d.columns, rows := upsertRows d.rows rec }, true)

/-- Name of the rendered PDF artifact for a (roll number, hall ticket
id) pair (src/alsu.py lines 78 and 149). -/
def pdf_filename (roll ticket : String) : String :=
  "hall_ticket_" ++ roll ++ "_" ++ ticket ++ ".pdf"

/-- The row filter inside `delete_from_database` (src/alsu.py line 72):
keep a row iff its roll number differs OR its hall ticket id differs. -/
def deleteRows (rows : List StudentRecord) (roll ticket : String) :
    List StudentRecord :=
  rows.filter (fun r => r.roll_number != roll || r.hall_ticket_id != ticket)

/-- `delete_from_database` (src/alsu.py lines 66-85): reload the
database, drop rows matching both keys, write the file back, then
delete the rendered PDF artifact if it exists.  `files` is the set of
artifact filenames in the temp directory.  Returns the new file state,
the surviving artifact files, and the success flag. -/
def delete_from_database (file : DbFile) (files : List String)
    (roll ticket : String) : DbFile × List String × Bool :=
  let d := (load_database file).1
  let fname := pdf_filename roll ticket
  let files' := if files.contains fname then
      files.filter (fun f => f != fname)
    else files
  (.present { columns := d.columns, rows := deleteRows d.rows roll ticket },
   files', true)

/-- `create_scannable_qr_data` (src/alsu.py lines 99-105): the QR
payload is the hall ticket id and the roll number joined by a colon. -/
def create_scannable_qr_data (hall_ticket_id student_roll_number : String) :
    String :=
  hall_ticket_id ++ ":" ++ student_roll_number

/-- Python `str.split(":")` on a character list: splits at every colon,
keeping empty pieces (so `[] ↦ [[]]`, `[:] ↦ [[], []]`). -/
def splitColons : List Char → List (List Char)
  | [] => [[]]
  | c :: rest =>
    if c = ':' then [] :: splitColons rest
    else
      match splitColons rest with
      | [] => [[c]]
      | g :: gs => (c :: g) :: gs

/-- The decoding performed in `create_qr_download_endpoint`
(src/alsu.py lines 347-353): `hall_ticket_id, roll_number =
qr_data.split(":")`.  The two-variable unpacking succeeds exactly when
the split yields two pieces; any other shape raises `ValueError`,
caught by the bare `except`, which reports invalid QR data.  `none`
models that error branch. -/
def parse_qr_data (s : String) : Option (String × String) :=
  match splitColons s.data with
  | [a, b] => some (String.mk a, String.mk b)
  | _ => none

/-- A pixel value of the modelled image. -/
inductive Color where
  | black
  | white
deriving DecidableEq, Repr

/-- A raster image as the program observes it: dimensions plus a pixel
function. -/
structure Image where
  width : Nat
  height : Nat
  pixel : Nat → Nat → Color

/-- `Image.new('RGB', (w, h), color='white')`: a blank all-white
image. -/
def image_new_white (w h : Nat) : Image :=
  { width := w, height := h, pixel := fun _ _ => .white }

/-- `img.resize((w, h))` (PIL): the result has exactly the requested
dimensions; pixels are sampled from the source. -/
def resize_image (img : Image) (w h : Nat) : Image :=
  { width := w, height := h,
    pixel := fun x y => img.pixel (x * img.width / w) (y * img.height / h) }

/-- `generate_qr_code` (src/alsu.py lines 108-127).  The qrcode library
is abstracted as `render : String → Option Image` (`none` = any
exception while building the QR image).  On success the library image
is resized to `size × size`; on failure the error is reported and a
blank white `size × size` image is returned. -/
def generate_qr_code (render : String → Option Image) (data : String)
    (size : Nat) : Image :=
  match render data with
  | some img => resize_image img size size
  | none => image_new_white size size

/-- The subject-name truncation of the renderer (src/alsu.py lines
266-268): names longer than 40 characters are cut to the first 37
characters plus `"..."`. -/
def truncate_subject_name (s : String) : String :=
  if s.length > 40 then String.mk (s.data.take 37) ++ "..." else s

/-! ## Serialized subjects: Python `repr` and `ast.literal_eval`

When a record is written to the CSV, pandas stores the `subjects` list
as its Python `repr`; reading it back yields that string, and the
renderer recovers the list with `ast.literal_eval` (src/alsu.py lines
228-234).  We model `repr` and `literal_eval` restricted to the grammar
`repr` actually produces for subject lists — a `[...]`-bracketed,
`", "`-separated list of single-quoted strings and
`{'code': …, 'name': …, 'date': …}` dicts — without escape sequences,
which is faithful for strings containing no single quote and no
backslash (`plainString`).  A string outside this grammar (e.g.
`"a,b,c"`) makes `literal_eval` fail, which the code catches and falls
back to comma-splitting. -/

/-- The single-quote character used by Python `repr` for strings. -/
def qc : Char := '\x27'

/-- `repr` of a string without escapes: `'…'`. -/
def reprStrL (s : String) : List Char :=
  qc :: s.data ++ [qc]

/-- The literal characters `{'code': '` opening a subject dict. -/
def codeKey : List Char :=
  ['\x7b', '\x27', 'c', 'o', 'd', 'e', '\x27', ':', ' ', '\x27']

/-- The literal characters `', 'name': '` between code and name. -/
def nameKey : List Char :=
  [',', ' ', '\x27', 'n', 'a', 'm', 'e', '\x27', ':', ' ', '\x27']

/-- The literal characters `', 'date': '` between name and date. -/
def dateKey : List Char :=
  [',', ' ', '\x27', 'd', 'a', 't', 'e', '\x27', ':', ' ', '\x27']

/-- `repr` of a `{'code': c, 'name': n, 'date': d}` dict (keys in the
insertion order used at src/alsu.py lines 545-549). -/
def reprEntryL (c n d : String) : List Char :=
  codeKey ++ c.data ++ qc :: nameKey ++ n.data ++ qc ::
    dateKey ++ d.data ++ qc :: ['\x7d']

/-- `repr` of one subject list element. -/
def reprSubjectL : Subject → List Char
  | .entry c n d => reprEntryL c n d
  | .bare s => reprStrL s

/-- `repr` of the comma-space separated list body. -/
def reprItemsL : List Subject → List Char
  | [] => []
  | [x] => reprSubjectL x
  | x :: y :: xs => reprSubjectL x ++ ',' :: ' ' :: reprItemsL (y :: xs)

/-- Python `repr` of a subject list, as stored in the CSV cell. -/
def reprSubjects (xs : List Subject) : String :=
  String.mk ('[' :: reprItemsL xs ++ [']'])

/-- A string with no single quote and no backslash: the domain on
which the escape-free `repr` model is faithful to Python. -/
def plainString (s : String) : Bool :=
  s.data.all (fun c => c ≠ '\x27' && c ≠ '\\')

/-- All strings in a subject are plain. -/
def plainSubject : Subject → Bool
  | .entry c n d => plainString c && plainString n && plainString d
  | .bare s => plainString s

/-- All strings in a subject list are plain. -/
def plainSubjects (xs : List Subject) : Bool :=
  xs.all plainSubject

/-- Parse the body of a single-quoted string: characters up to the
next closing quote. -/
def parseStrBody : List Char → Option (List Char × List Char)
  | [] => none
  | c :: rest =>
    if c = qc then some ([], rest)
    else
      match parseStrBody rest with
      | some (s, r) => some (c :: s, r)
      | none => none

/-- Consume an expected literal character sequence. -/
def eatLit : List Char → List Char → Option (List Char)
  | [], cs => some cs
  | _ :: _, [] => none
  | p :: ps, c :: cs => if p = c then eatLit ps cs else none

/-- Parse one list element: a quoted string or a subject dict. -/
def parseItem (cs : List Char) : Option (Subject × List Char) :=
  match cs with
  | [] => none
  | c :: rest =>
    if c = qc then
      match parseStrBody rest with
      | some (s, r) => some (.bare (String.mk s), r)
      | none => none
    else
      match eatLit codeKey cs with
      | none => none
      | some r1 =>
        match parseStrBody r1 with
        | none => none
        | some (cd, r2) =>
          match eatLit nameKey r2 with
          | none => none
          | some r3 =>
            match parseStrBody r3 with
            | none => none
            | some (nm, r4) =>
              match eatLit dateKey r4 with
              | none => none
              | some r5 =>
                match parseStrBody r5 with
                | none => none
                | some (dt, r6) =>
                  match r6 with
                  | '\x7d' :: r7 =>
                    some (.entry (String.mk cd) (String.mk nm)
                            (String.mk dt), r7)
                  | _ => none

/-- Parse a nonempty `", "`-separated item sequence up to the closing
bracket; `fuel` bounds the recursion depth. -/
def parseItems : Nat → List Char → Option (List Subject × List Char)
  | 0, _ => none
  | fuel + 1, cs =>
    match parseItem cs with
    | none => none
    | some (x, r) =>
      match r with
      | ']' :: rest => some ([x], rest)
      | ',' :: ' ' :: rest =>
        match parseItems fuel rest with
        | none => none
        | some (xs, r2) => some (x :: xs, r2)
      | _ => none

/-- `ast.literal_eval` restricted to the subject-list grammar: `none`
models any exception (the `except` branch at src/alsu.py line 232). -/
def literalEvalList (s : String) : Option (List Subject) :=
  match s.data with
  | '[' :: rest =>
    if rest = [']'] then some []
    else
      match parseItems rest.length rest with
      | some (xs, []) => some xs
      | _ => none
  | _ => none

/-- Python `str.split(",")` on a character list, keeping empty
pieces. -/
def splitCommasL : List Char → List (List Char)
  | [] => [[]]
  | c :: rest =>
    if c = ',' then [] :: splitCommasL rest
    else
      match splitCommasL rest with
      | [] => [[c]]
      | g :: gs => (c :: g) :: gs

/-- Python `str.strip()`: drop leading and trailing whitespace. -/
def stripL (l : List Char) : List Char :=
  ((l.dropWhile Char.isWhitespace).reverse.dropWhile Char.isWhitespace).reverse

/-- The comma-split fallback at src/alsu.py line 234:
`[s.strip() for s in subjects.split(',') if s.strip()]`. -/
def split_comma (s : String) : List String :=
  ((splitCommasL s.data).map (fun p => String.mk (stripL p))).filter
    (fun t => t != "")

/-- Subject normalization (src/alsu.py lines 227-234): a literal list
is used as is; a string is parsed with `literal_eval`, and on failure
split on commas into trimmed nonempty bare strings. -/
def normalize_subjects : SubjectsField → List Subject
  | .lit xs => xs
  | .str s =>
    match literalEvalList s with
    | some xs => xs
    | none => (split_comma s).map .bare

/-- A 45-character subject name used to exercise truncation. -/
def longName : String := String.mk (List.replicate 45 'A')

/-- A sample subject list used to exercise normalization. -/
def demoSubjects : List Subject :=
  [.entry "CS101" "Introduction to Programming" "01-05-2024",
   .bare "Extra Elective"]

/-! ## Record store theorems -/

/-- C1: after `upsert(record)`, the store contains exactly one row
whose `roll_number` equals the record's, and that row carries the new
field values: filtering the resulting rows by the record's roll number
yields exactly `[rec]`, for every prior store state. -/
theorem upsert_unique_row (rows : List StudentRecord) (rec : StudentRecord) :
    (upsertRows rows rec).filter
      (fun r => r.roll_number == rec.roll_number) = [rec] := by
  unfold upsertRows
  by_cases h : rows.any (fun r => r.roll_number == rec.roll_number)
  · simp only [h, if_true, List.filter_append, List.filter_filter]
    have h1 : (rows.filter fun r =>
        (r.roll_number == rec.roll_number) &&
          (r.roll_number != rec.roll_number)) = [] := by
      apply List.filter_eq_nil_iff.mpr
      intro r _
      simp [bne]
    simp [h1]
  · simp only [h, if_false, List.filter_append]
    have h1 : (rows.filter fun r => r.roll_number == rec.roll_number) = [] := by
      apply List.filter_eq_nil_iff.mpr
      intro r hr
      have := List.any_eq_false.mp (Bool.eq_false_iff.mpr h) r hr
      simpa using this
    simp [h1]

/-- C9: upsert appends the new record as the last row: the result is
exactly the surviving rows (those with a different roll number), in
their original relative order, followed by the record; the survivors
form a sublist of the original rows. -/
theorem upsert_append_order (rows : List StudentRecord) (rec : StudentRecord) :
    upsertRows rows rec
      = rows.filter (fun r => r.roll_number != rec.roll_number) ++ [rec]
    ∧ List.Sublist (rows.filter (fun r => r.roll_number != rec.roll_number))
        rows := by
  refine ⟨?_, List.filter_sublist _⟩
  unfold upsertRows
  by_cases h : rows.any (fun r => r.roll_number == rec.roll_number)
  · simp [h]
  · have h1 : (rows.filter fun r => r.roll_number != rec.roll_number) = rows := by
      apply List.filter_eq_self.mpr
      intro r hr
      have := List.any_eq_false.mp (Bool.eq_false_iff.mpr h) r hr
      simpa [bne] using this
    simp [h, h1]

/-- C2: delete removes exactly the rows matching both the roll number
and the hall ticket id; every other row survives unchanged and in
order (the survivors are the filter of the original rows by the
negated conjunction, and form a sublist of them). -/
theorem delete_precision (d : DF) (files : List String) (roll ticket : String) :
    (delete_from_database (.present d) files roll ticket).1
      = .present ⟨d.columns, d.rows.filter (fun r =>
          decide (¬(r.roll_number = roll ∧ r.hall_ticket_id = ticket)))⟩
    ∧ List.Sublist (deleteRows d.rows roll ticket) d.rows := by
  have hrows : deleteRows d.rows roll ticket
      = d.rows.filter (fun r =>
          decide (¬(r.roll_number = roll ∧ r.hall_ticket_id = ticket))) := by
    unfold deleteRows
    apply List.filter_congr
    intro r _
    rw [Bool.eq_iff_iff]
    simp [not_and_or]
  refine ⟨?_, List.filter_sublist _⟩
  simp only [delete_from_database, load_database, hrows]

/-- C10: delete removes the rendered PDF artifact named from the
(roll number, hall ticket id) pair whenever it exists, independently of
which stored rows matched; no other artifact file is touched, and the
operation succeeds even when the file is absent. -/
theorem delete_artifact (d : DF) (files : List String) (roll ticket : String) :
    pdf_filename roll ticket
        ∉ (delete_from_database (.present d) files roll ticket).2.1
    ∧ (∀ g, g ≠ pdf_filename roll ticket →
        ((g ∈ (delete_from_database (.present d) files roll ticket).2.1)
          ↔ g ∈ files))
    ∧ (∀ d' : DF, (delete_from_database (.present d') files roll ticket).2.1
        = (delete_from_database (.present d) files roll ticket).2.1)
    ∧ (delete_from_database (.present d) files roll ticket).2.2 = true := by
  refine ⟨?_, ?_, fun _ => rfl, rfl⟩
  · by_cases h : pdf_filename roll ticket ∈ files
    · simp [delete_from_database, h, List.mem_filter, bne]
    · simp [delete_from_database, h]
  · intro g hg
    by_cases h : pdf_filename roll ticket ∈ files
    · simp [delete_from_database, h, List.mem_filter, bne, hg]
    · simp [delete_from_database, h]

/-- C7: `loadAll` returns the stored rows when the file is present; on
absence it creates (and returns) an empty store with exactly the fixed
column set without reporting an error; on read failure it reports the
error and returns the same empty store, never raising. -/
theorem load_database_spec :
    (∀ d : DF, load_database (.present d) = (d, .present d, false))
    ∧ load_database .absent = (emptyDF, .present emptyDF, false)
    ∧ load_database .unreadable = (emptyDF, .unreadable, true)
    ∧ emptyDF = { columns := requiredColumns, rows := [] } :=
  ⟨fun _ => rfl, rfl, rfl, rfl⟩

/-! ## QR payload encode/decode theorems -/

theorem splitColons_ne_nil (l : List Char) : splitColons l ≠ [] := by
  induction l with
  | nil => simp [splitColons]
  | cons c rest ih =>
    by_cases h : c = ':'
    · simp [splitColons, h]
    · cases hS : splitColons rest with
      | nil => exact absurd hS ih
      | cons g gs => simp [splitColons, h, hS]

theorem splitColons_no_colon (l : List Char) (h : ':' ∉ l) :
    splitColons l = [l] := by
  induction l with
  | nil => rfl
  | cons c rest ih =>
    simp only [List.mem_cons, not_or] at h
    simp [splitColons, Ne.symm h.1, ih h.2]

theorem splitColons_append (a b : List Char) (ha : ':' ∉ a) :
    splitColons (a ++ ':' :: b) = a :: splitColons b := by
  induction a with
  | nil => simp [splitColons]
  | cons c a' ih =>
    simp only [List.mem_cons, not_or] at ha
    simp [splitColons, Ne.symm ha.1, ih ha.2]

theorem splitColons_length (l : List Char) :
    (splitColons l).length = l.count ':' + 1 := by
  induction l with
  | nil => simp [splitColons]
  | cons c rest ih =>
    by_cases h : c = ':'
    · simp [splitColons, h, ih, List.count_cons]
    · cases hS : splitColons rest with
      | nil => exact absurd hS (splitColons_ne_nil rest)
      | cons g gs =>
        rw [hS] at ih
        simp only [List.length_cons] at ih
        simp [splitColons, h, hS, List.count_cons, ih]

theorem splitColons_single (l p : List Char) (h : splitColons l = [p]) :
    l = p ∧ ':' ∉ p := by
  induction l generalizing p with
  | nil =>
    simp [splitColons] at h
    subst h
    simp
  | cons c rest ih =>
    by_cases hc : c = ':'
    · simp [splitColons, hc] at h
      exact absurd h.2 (splitColons_ne_nil rest)
    · cases hS : splitColons rest with
      | nil => exact absurd hS (splitColons_ne_nil rest)
      | cons g gs =>
        simp [splitColons, hc, hS] at h
        obtain ⟨hp, hgs⟩ := h
        subst hgs
        obtain ⟨hrest, hg⟩ := ih g hS
        subst hrest
        subst hp
        simp [Ne.symm hc, hg]

theorem splitColons_pair (l a b : List Char) (h : splitColons l = [a, b]) :
    l = a ++ ':' :: b ∧ ':' ∉ a ∧ ':' ∉ b := by
  induction l generalizing a with
  | nil => simp [splitColons] at h
  | cons c rest ih =>
    by_cases hc : c = ':'
    · simp [splitColons, hc] at h
      obtain ⟨ha, hrest⟩ := h
      subst ha
      obtain ⟨hl, hb⟩ := splitColons_single rest b hrest
      subst hl
      subst hc
      exact ⟨rfl, by simp, hb⟩
    · cases hS : splitColons rest with
      | nil => exact absurd hS (splitColons_ne_nil rest)
      | cons g gs =>
        simp [splitColons, hc, hS] at h
        obtain ⟨ha, hgs⟩ := h
        subst hgs
        obtain ⟨hrest, hg, hb⟩ := ih g hS
        subst hrest
        subst ha
        simp [Ne.symm hc, hg, hb]

/-- C3: decoding the encoded token recovers the original pair:
`decode(encode(T, R)) = (T, R)` whenever neither the ticket id nor the
roll number contains a colon. -/
theorem qr_code_roundtrip (t r : String)
    (ht : ':' ∉ t.data) (hr : ':' ∉ r.data) :
    parse_qr_data (create_scannable_qr_data t r) = some (t, r) := by
  unfold parse_qr_data create_scannable_qr_data
  have hdata : (t ++ ":" ++ r).data = t.data ++ ':' :: r.data := by
    simp [String.data_append]
  rw [hdata, splitColons_append _ _ ht, splitColons_no_colon _ hr]

/-- C3 witness: the round trip at a concrete ticket id and roll
number. -/
theorem qr_code_roundtrip_witness :
    parse_qr_data (create_scannable_qr_data "AB12CD34" "R100")
      = some ("AB12CD34", "R100") :=
  qr_code_roundtrip "AB12CD34" "R100" (by decide) (by decide)

/-- C4 counterexample: on the token `"AB:CD:EF"` the claim's
first-colon split would yield `("AB", "CD:EF")`, but the code's
two-variable unpacking of `split(":")` raises and lands in the error
branch, so decoding reports invalid input instead. -/
theorem qr_decode_first_colon_cex :
    parse_qr_data "AB:CD:EF" = none
    ∧ parse_qr_data "AB:CD:EF" ≠ some ("AB", "CD:EF") := by
  constructor
  · decide
  · decide

theorem parse_qr_data_none_iff (s : String) :
    parse_qr_data s = none ↔ (splitColons s.data).length ≠ 2 := by
  unfold parse_qr_data
  match hS : splitColons s.data with
  | [] => simp
  | [g] => simp
  | [g, g2] => simp
  | g :: g2 :: g3 :: gs => simp

/-- C4 (amended): decoding accepts exactly the tokens containing
exactly one colon; it then yields the colon-free parts on either side.
Every other token — no colon, or several — is treated as invalid input
(the reported error branch), and decoding is total, never raising past
its caller. -/
theorem qr_decode_amended (s : String) :
    (parse_qr_data s = none ↔ s.data.count ':' ≠ 1)
    ∧ (∀ a b : String, parse_qr_data s = some (a, b) →
        s = a ++ ":" ++ b ∧ ':' ∉ a.data ∧ ':' ∉ b.data) := by
  constructor
  · rw [parse_qr_data_none_iff, splitColons_length]
    omega
  · intro a b hab
    unfold parse_qr_data at hab
    cases hS : splitColons s.data with
    | nil => exact absurd hS (splitColons_ne_nil _)
    | cons g gs =>
      rw [hS] at hab
      match gs, hab with
      | [g2], hab =>
        simp only [Option.some.injEq, Prod.mk.injEq] at hab
        obtain ⟨ha, hb⟩ := hab
        obtain ⟨hsplit, hg, hg2⟩ := splitColons_pair s.data g g2 hS
        subst ha
        subst hb
        refine ⟨String.ext ?_, hg, hg2⟩
        simp [String.data_append, hsplit]

/-- C4 witness: the amended theorem applied at the concrete token
`"AB:R100"`. -/
theorem qr_decode_amended_witness :
    "AB:R100" = "AB" ++ ":" ++ "R100"
    ∧ ':' ∉ "AB".data ∧ ':' ∉ "R100".data :=
  (qr_decode_amended "AB:R100").2 "AB" "R100" (by decide)

/-! ## Renderer theorems: truncation and QR rasterizing -/

/-- C6: a subject name longer than 40 characters renders as its first
37 characters followed by `"..."` (40 characters in total); a name of
at most 40 characters renders unchanged; every rendered name has
length at most 40. -/
theorem truncate_name_spec (s : String) :
    (s.length > 40 →
      truncate_subject_name s = String.mk (s.data.take 37) ++ "..."
      ∧ (truncate_subject_name s).length = 40)
    ∧ (s.length ≤ 40 → truncate_subject_name s = s)
    ∧ (truncate_subject_name s).length ≤ 40 := by
  by_cases h : s.length > 40
  · refine ⟨fun _ => ⟨?_, ?_⟩, fun h' => absurd h (by omega), ?_⟩
    · simp [truncate_subject_name, h]
    · have hlen : (truncate_subject_name s).length = 40 := by
        simp only [truncate_subject_name, h, if_true, String.length_append]
        have hs : 40 < s.data.length := h
        have h37 : (String.mk (s.data.take 37)).length = 37 := by
          show (s.data.take 37).length = 37
          rw [List.length_take]
          omega
        rw [h37]
        rfl
      exact hlen
    · have hlen : (truncate_subject_name s).length = 40 := by
        simp only [truncate_subject_name, h, if_true, String.length_append]
        have hs : 40 < s.data.length := h
        have h37 : (String.mk (s.data.take 37)).length = 37 := by
          show (s.data.take 37).length = 37
          rw [List.length_take]
          omega
        rw [h37]
        rfl
      omega
  · refine ⟨fun h' => absurd h' h, fun _ => ?_, ?_⟩
    · simp [truncate_subject_name, h]
    · simp only [truncate_subject_name, h, if_false]
      omega

/-- C6 witness: a 45-character name truncates to its first 37
characters plus the ellipsis, totalling 40 characters. -/
theorem truncate_name_spec_witness :
    truncate_subject_name longName
      = String.mk (longName.data.take 37) ++ "..."
    ∧ (truncate_subject_name longName).length = 40 :=
  (truncate_name_spec longName).1 (by decide)

/-- C8: the QR rasterizer returns an image of exactly the requested
square size in both outcomes, and on any encoding failure the result
is the blank all-white placeholder, never an exception. -/
theorem qr_image_size_spec (render : String → Option Image)
    (data : String) (size : Nat) :
    (generate_qr_code render data size).width = size
    ∧ (generate_qr_code render data size).height = size
    ∧ (render data = none →
        ∀ x y, (generate_qr_code render data size).pixel x y = .white) := by
  unfold generate_qr_code
  cases h : render data with
  | some img =>
    refine ⟨rfl, rfl, fun hc => absurd hc ?_⟩
    simp
  | none => exact ⟨rfl, rfl, fun _ _ _ => rfl⟩

/-- C8 witness: a failing renderer yields a 5×5 all-white image. -/
theorem qr_image_size_spec_witness :
    (generate_qr_code (fun _ => none) "AB:R100" 5).width = 5
    ∧ (generate_qr_code (fun _ => none) "AB:R100" 5).pixel 2 3
        = Color.white :=
  ⟨(qr_image_size_spec (fun _ => none) "AB:R100" 5).1,
   (qr_image_size_spec (fun _ => none) "AB:R100" 5).2.2 rfl 2 3⟩

/-! ## Subject serialization round trip -/

theorem plainString_no_quote (s : String) (h : plainString s = true) :
    qc ∉ s.data := by
  intro hmem
  have hall := List.all_eq_true.mp h _ hmem
  simp [qc] at hall

theorem eatLit_self (p r : List Char) : eatLit p (p ++ r) = some r := by
  induction p with
  | nil => rfl
  | cons c cs ih => simp [eatLit, ih]

theorem parseStrBody_append (s r : List Char) (h : qc ∉ s) :
    parseStrBody (s ++ qc :: r) = some (s, r) := by
  induction s with
  | nil => simp [parseStrBody]
  | cons c cs ih =>
    simp only [List.mem_cons, not_or] at h
    simp [parseStrBody, Ne.symm h.1, ih h.2]

theorem parseItem_repr (x : Subject) (r : List Char)
    (h : plainSubject x = true) :
    parseItem (reprSubjectL x ++ r) = some (x, r) := by
  cases x with
  | bare s =>
    have hq : qc ∉ s.data := plainString_no_quote s (by simpa [plainSubject] using h)
    simp [reprSubjectL, reprStrL, parseItem, List.cons_append, List.append_assoc,
      parseStrBody_append _ _ hq]
  | entry c n d =>
    simp only [plainSubject, Bool.and_eq_true] at h
    have hc : qc ∉ c.data := plainString_no_quote c h.1.1
    have hn : qc ∉ n.data := plainString_no_quote n h.1.2
    have hd : qc ∉ d.data := plainString_no_quote d h.2
    have hqb : ¬('\x7b' = qc) := by decide
    simp [hqb, reprSubjectL, reprEntryL, parseItem, codeKey, nameKey, dateKey,
      eatLit, List.cons_append, List.append_assoc,
      parseStrBody_append _ _ hc, parseStrBody_append _ _ hn,
      parseStrBody_append _ _ hd]

theorem reprSubjectL_len (x : Subject) : 2 ≤ (reprSubjectL x).length := by
  cases x with
  | bare s => simp [reprSubjectL, reprStrL]
  | entry c n d =>
    simp [reprSubjectL, reprEntryL, codeKey, nameKey, dateKey]

theorem reprItemsL_length (x : Subject) (xs : List Subject) :
    (x :: xs).length + 1 ≤ (reprItemsL (x :: xs)).length := by
  induction xs generalizing x with
  | nil =>
    have := reprSubjectL_len x
    simp [reprItemsL]
    omega
  | cons y ys ih =>
    have h1 := reprSubjectL_len x
    have h2 := ih y
    simp only [reprItemsL, List.length_append, List.length_cons] at *
    omega

theorem parseItems_repr (xs : List Subject) :
    ∀ (x : Subject) (r : List Char) (fuel : Nat),
      plainSubject x = true → plainSubjects xs = true →
      xs.length < fuel →
      parseItems fuel (reprItemsL (x :: xs) ++ ']' :: r) = some (x :: xs, r) := by
  induction xs with
  | nil =>
    intro x r fuel hx _ hf
    match fuel, hf with
    | fuel + 1, _ =>
      simp [reprItemsL, parseItems, parseItem_repr x (']' :: r) hx]
  | cons y ys ih =>
    intro x r fuel hx hys hf
    have hy : plainSubject y = true ∧ plainSubjects ys = true := by
      simpa [plainSubjects] using hys
    match fuel, hf with
    | fuel + 1, hf =>
      have hrec := ih y r fuel hy.1 hy.2 (by
        simp only [List.length_cons] at hf
        omega)
      simp only [reprItemsL, List.append_assoc, List.cons_append]
      simp [parseItems,
        parseItem_repr x (',' :: ' ' :: (reprItemsL (y :: ys) ++ ']' :: r)) hx,
        hrec]

theorem literalEval_repr (xs : List Subject) (h : plainSubjects xs = true) :
    literalEvalList (reprSubjects xs) = some xs := by
  cases xs with
  | nil => rfl
  | cons x xs' =>
    have hx : plainSubject x = true ∧ plainSubjects xs' = true := by
      simpa [plainSubjects] using h
    have hlen := reprItemsL_length x xs'
    have hne : reprItemsL (x :: xs') ++ [']'] ≠ [']'] := by
      intro heq
      have : (reprItemsL (x :: xs') ++ [']']).length = 1 := by rw [heq]; rfl
      simp only [List.length_append, List.length_cons] at this hlen
      omega
    have hfuel : xs'.length < (reprItemsL (x :: xs') ++ [']']).length := by
      simp only [List.length_append, List.length_cons, List.length_nil] at hlen ⊢
      omega
    have hparse := parseItems_repr xs' x [] (reprItemsL (x :: xs') ++ [']']).length
      hx.1 hx.2 hfuel
    simp only [literalEvalList, reprSubjects]
    simp only [List.cons_append, List.length_append, List.length_cons,
      List.length_nil] at hparse ⊢
    simp [hne, hparse]

/-- C5: subject normalization accepts all three arrival forms: a
literal sequence is used unchanged; the serialized-text encoding of
that same sequence parses back to the equivalent sequence (for
subjects whose strings are free of quote/backslash, where the
escape-free `repr` model is faithful); and the comma-separated plain
string `"a,b,c"` normalizes to its trimmed nonempty items as bare
strings. -/
theorem subject_normalization (xs : List Subject)
    (h : plainSubjects xs = true) :
    normalize_subjects (.lit xs) = xs
    ∧ normalize_subjects (.str (reprSubjects xs)) = xs
    ∧ normalize_subjects (.str "a,b,c")
        = [.bare "a", .bare "b", .bare "c"] := by
  refine ⟨rfl, ?_, by decide⟩
  simp [normalize_subjects, literalEval_repr xs h]

/-- C5 witness: normalization of a concrete subject list, its
serialized text, and a comma string. -/
theorem subject_normalization_witness :
    normalize_subjects (.lit demoSubjects) = demoSubjects
    ∧ normalize_subjects (.str (reprSubjects demoSubjects)) = demoSubjects
    ∧ normalize_subjects (.str "a,b,c")
        = [.bare "a", .bare "b", .bare "c"] :=
  subject_normalization demoSubjects (by decide)

/-- C10 witness: deleting `(R100, AB12CD34)` removes that pair's PDF
artifact while an unrelated artifact file survives. -/
theorem delete_artifact_witness :
    ("other.pdf" ∈ (delete_from_database (.present emptyDF)
        [pdf_filename "R100" "AB12CD34", "other.pdf"] "R100" "AB12CD34").2.1
      ↔ "other.pdf" ∈ [pdf_filename "R100" "AB12CD34", "other.pdf"]) :=
  (delete_artifact emptyDF [pdf_filename "R100" "AB12CD34", "other.pdf"]
      "R100" "AB12CD34").2.1 "other.pdf" (by decide)
